import Mathlib

set_option maxHeartbeats 1000000

/-!
Shallow embedding of the `postgrest` Go package (`postgrest.go`).

Conventions of the embedding:
* Go `error` values become the inductive `GoError`; package-level error
  singletons become nullary constructors, `fmt.Errorf` wrappers become
  constructors carrying the interpolated data.
* Time is passed explicitly: the Agent pipeline takes `now`, the current
  time in nanoseconds since the Unix epoch (`time.Now()`); `Claims.Valid`
  takes the current Unix time in seconds (`time.Now().Unix()`).
  `Config.Timeout` is the numeric (int64) value of the Go `time.Duration`
  field; the code computes `time.Now().Add(config.Timeout * time.Second)
  .Unix()`, where `config.Timeout * time.Second` is int64 multiplication
  by 10^9 and wraps on overflow — `wrapInt64` models that wraparound —
  and `Unix()` is the floor of the nanosecond clock divided by 10^9.
* The injected capabilities keep their Go shapes: the JWT generator
  returns a pair `(tokenStr, err)` (Go returns both), the HTTP client maps
  a request to a response or a transport error.
* Every operation that may hand requests to the HTTP client additionally
  returns the list of requests actually given to the client, in order, so
  that "no request was sent" and "probed master before slave" are
  provable statements.
* `unmarshalResponse` additionally returns the trace of operations
  performed on the response body stream (`read n` bytes, `close`), so
  that resource-lifecycle claims about the body are provable.
* The relevant behavior of the Go standard library (`net/url` parsing and
  query encoding, `http.NewRequest`) is modelled character-by-character on
  `List Char` so that concrete instances reduce inside the kernel.
-/

namespace Postgrest

/-- Model of the Go `error` values this package can produce. -/
inductive GoError where
  | missingConfigParams
  | missingHTTPClient
  | missingJWTGenerator
  | missingRequestMethod
  | missingRequestURL
  | missingURLPath
  | missingRoleClaim
  | invalidExpiryClaim
  | invalidConfig (fields : List String)
  | urlParseError (msg : String)
  | remoteError (method url status : String)
  | decodeError (msg : String)
  | serviceError (side : String) (err : GoError)
  | errorString (msg : String)
deriving DecidableEq

/-- Go `Config` struct. Fields keep their Go names; `required:"true"` tags
sit on every field except `Issuer`. `Timeout` is the numeric (int64)
value of the `time.Duration` field; `generateClaims` multiplies it by
`time.Second` in int64 arithmetic, so it counts seconds as long as the
product does not overflow. -/
structure Config where
  Issuer : String
  MasterBaseURL : String
  MasterRole : String
  MasterSecret : String
  SlaveBaseURL : String
  SlaveRole : String
  SlaveSecret : String
  Timeout : Int
deriving DecidableEq

/-- Go `isSuccess`: true iff the status code is in [200, 300). -/
def isSuccess (httpStatusCode : Nat) : Bool :=
  200 ≤ httpStatusCode && httpStatusCode < 300

/-- `http.MethodGet`. -/
def MethodGet : String := "GET"

/-- `http.MethodPost`. -/
def MethodPost : String := "POST"

/-- `http.MethodPatch`. -/
def MethodPatch : String := "PATCH"

/-- `http.MethodDelete`. -/
def MethodDelete : String := "DELETE"

/-- `http.StatusInternalServerError`. -/
def StatusInternalServerError : Nat := 500

/-- Go `Claims` struct (role, issuer, expiry as a Unix timestamp). -/
structure Claims where
  Role : String
  Issuer : String
  ExpiresAt : Int
deriving DecidableEq

/-- Go `Claims.Valid`: fails with the missing-role error when the role is
empty, with the invalid-expiry error when the expiry is not strictly in
the future; `now` models `time.Now().Unix()`. -/
def Claims.Valid (c : Claims) (now : Int) : Option GoError :=
  if c.Role = "" then some .missingRoleClaim
  else if c.ExpiresAt ≤ now then some .invalidExpiryClaim
  else none

/-- Two's-complement wraparound into the int64 range `[-2^63, 2^63)`, as
Go arithmetic on `time.Duration` (an int64) behaves on overflow. -/
def wrapInt64 (n : Int) : Int :=
  (n + 2 ^ 63) % 2 ^ 64 - 2 ^ 63

/-- Go `generateClaims`: role as given, issuer from the config; the
expiry is `time.Now().Add(config.Timeout * time.Second).Unix()`:
`config.Timeout * time.Second` is int64 (`time.Duration`) multiplication
by 10^9 and wraps on overflow, the wrapped duration is added to the
current time `now` (nanoseconds since the Unix epoch), and `Unix()` is
the floor of the resulting nanosecond time divided by 10^9 (Euclidean
division by the positive 10^9 is exactly that floor, matching Go's
normalized seconds/nanoseconds representation). -/
def generateClaims (role : String) (config : Config) (now : Int) : Claims :=
  { Role := role, Issuer := config.Issuer,
    ExpiresAt := (now + wrapInt64 (config.Timeout * 1000000000)) / 1000000000 }

/-! Model of the slice of Go `net/url` used by this package: parsing a
base URL of the form `scheme://host/path?query` (or a scheme-less
reference), re-serializing it, and `url.Values.Encode`. Modelled on
`List Char` so the kernel can evaluate concrete instances. -/

/-- Parsed URL: the fields of Go `url.URL` that this package touches. -/
structure GoURL where
  Scheme : String
  Host : String
  Path : String
  RawQuery : String
deriving DecidableEq

/-- Splits a character list at the first occurrence of `"://"`, returning
the part before and the part after, or `none` when absent. -/
def splitSchemeSep : List Char → Option (List Char × List Char)
  | [] => none
  | ':' :: '/' :: '/' :: rest => some ([], rest)
  | c :: rest => (splitSchemeSep rest).map (fun p => (c :: p.fst, p.snd))

/-- Splits a character list at the first occurrence of `sep`: the part
before, and the part after when `sep` occurs. -/
def splitFirstChar (sep : Char) : List Char → List Char × Option (List Char)
  | [] => ([], none)
  | c :: rest =>
    if c = sep then ([], some rest)
    else
      let p := splitFirstChar sep rest
      (c :: p.fst, p.snd)

/-- Characters allowed after the first character of a URL scheme. -/
def isSchemeTailChar (c : Char) : Bool :=
  c.isAlpha || c.isDigit || c == '+' || c == '-' || c == '.'

/-- A valid URL scheme: nonempty, a letter first, scheme characters after. -/
def validScheme : List Char → Bool
  | [] => false
  | c :: rest => c.isAlpha && rest.all isSchemeTailChar

/-- Model of Go `url.Parse` on the shapes this package uses: an absolute
URL `scheme://host/path?query` parses into its parts; a string with no
`"://"` parses as a scheme-less path-plus-query reference; a `"://"`
with an empty or invalid scheme (as in `"://bad/"`) fails the way Go
fails with `missing protocol scheme`. -/
def urlParse (rawURL : String) : Except String GoURL :=
  match splitSchemeSep rawURL.data with
  | none =>
    let p := splitFirstChar '?' rawURL.data
    .ok { Scheme := "", Host := "", Path := String.mk p.fst,
          RawQuery := String.mk (p.snd.getD []) }
  | some (scheme, rest) =>
    if validScheme scheme then
      let q := splitFirstChar '?' rest
      let h := splitFirstChar '/' q.fst
      .ok { Scheme := String.mk scheme, Host := String.mk h.fst,
            Path := match h.snd with
                    | none => ""
                    | some p => String.mk ('/' :: p),
            RawQuery := String.mk (q.snd.getD []) }
    else .error "missing protocol scheme"

/-- Model of Go `url.URL.String` on the shapes this package uses:
`scheme://host` when a scheme is present, then the path (with a `/`
inserted between a nonempty host and a path that does not start with
one, as Go does), then `?query` when the query is nonempty. -/
def GoURL.toString (u : GoURL) : String :=
  (if u.Scheme = "" then "" else u.Scheme ++ "://") ++ u.Host ++
  (match u.Path.data with
   | [] => ""
   | '/' :: _ => u.Path
   | _ => if u.Host = "" then u.Path else "/" ++ u.Path) ++
  (if u.RawQuery = "" then "" else "?" ++ u.RawQuery)

/-- `url.Values`: an association from keys to lists of values (a Go map,
so keys are assumed distinct). -/
abbrev QueryParams := List (String × List String)

/-- Characters Go `url.QueryEscape` leaves unescaped. -/
def isUnreservedQueryChar (c : Char) : Bool :=
  c.isAlpha || c.isDigit || c == '-' || c == '_' || c == '.' || c == '~'

/-- Uppercase hexadecimal digit for `n < 16`. -/
def hexDigit (n : Nat) : Char :=
  if n < 10 then Char.ofNat (48 + n) else Char.ofNat (55 + n)

/-- Escapes one character the way Go `url.QueryEscape` does (ASCII
range; this package only ever passes ASCII keys and values). -/
def queryEscapeChar (c : Char) : List Char :=
  if isUnreservedQueryChar c then [c]
  else if c == ' ' then ['+']
  else ['%', hexDigit (c.toNat / 16 % 16), hexDigit (c.toNat % 16)]

/-- Model of Go `url.QueryEscape`. -/
def queryEscape (s : String) : String :=
  String.mk (s.data.foldr (fun c acc => queryEscapeChar c ++ acc) [])

/-- Insertion into a key-sorted association list. -/
def insertByKey (x : String × List String) : QueryParams → QueryParams
  | [] => [x]
  | y :: ys => if x.fst ≤ y.fst then x :: y :: ys else y :: insertByKey x ys

/-- Sorts the entries by key, as Go `url.Values.Encode` sorts map keys. -/
def sortByKey (q : QueryParams) : QueryParams := q.foldr insertByKey []

/-- Joins strings with a separator. -/
def joinWith (sep : String) : List String → String
  | [] => ""
  | [s] => s
  | s :: rest => s ++ sep ++ joinWith sep rest

/-- Model of Go `url.Values.Encode`: keys in sorted order, one
`escapedKey=escapedValue` pair per value, joined with `&`. -/
def QueryParams.encode (q : QueryParams) : String :=
  joinWith "&"
    ((sortByKey q).flatMap
      (fun kv => kv.snd.map (fun v => queryEscape kv.fst ++ "=" ++ queryEscape v)))

/-- Go `buildURLStr`: fails with the missing-path error when `path` is
empty (before looking at anything else); fails with the parse error when
the base URL does not parse; otherwise replaces the parsed base URL's
path with `path` and its query with the encoded `queryParams` (absent
params give an empty query) and re-serializes. -/
def buildURLStr (baseURL path : String) (queryParams : Option QueryParams) :
    Except GoError String :=
  if path = "" then .error .missingURLPath
  else
    match urlParse baseURL with
    | .error e => .error (.urlParseError e)
    | .ok u =>
      let encodedQuery := match queryParams with
                          | none => ""
                          | some q => q.encode
      .ok (GoURL.toString { u with Path := path, RawQuery := encodedQuery })

/-- Go `http.Request` as built by this package: method, parsed URL, the
URL string it was built from, optional body, and headers in order. -/
structure GoRequest where
  Method : String
  URL : GoURL
  urlStr : String
  Body : Option String
  Header : List (String × String)
deriving DecidableEq

/-- Go package-level `newRequest`: `http.NewRequest` (which parses the
URL string and can fail on it) followed by adding the Authorization
header with the given token string. -/
def newRequest (method urlStr tokenStr : String) (body : Option String) :
    Except GoError GoRequest :=
  match urlParse urlStr with
  | .error e => .error (.urlParseError e)
  | .ok u =>
    .ok { Method := method, URL := u, urlStr := urlStr, Body := body,
          Header := [("Authorization", tokenStr)] }

/-- Go `http.Response` as consumed by this package: status code, status
text, the originating request's method and URL (Go `response.Request`),
and the body content. -/
structure GoResponse where
  StatusCode : Nat
  Status : String
  ReqMethod : String
  ReqURL : String
  Body : String
deriving DecidableEq

/-- One operation on the response body stream. -/
inductive BodyOp where
  | read (n : Nat)
  | close
deriving DecidableEq

/-- Total bytes read by a body trace. -/
def bytesRead (ops : List BodyOp) : Nat :=
  ops.foldl (fun n op => match op with | .read k => n + k | .close => n) 0

/-- Number of closes in a body trace. -/
def closeCount (ops : List BodyOp) : Nat :=
  ops.countP (fun op => match op with | .close => true | _ => false)

/-- A decode target: models `json.NewDecoder(body).Decode(target)` for a
target of type `α` as a function from the body content to the decode
outcome together with the number of bytes the decoder consumed. -/
abbrev DecodeTarget (α : Type) := String → Except String α × Nat

/-- Go `unmarshalResponse`: `defer response.Body.Close()` (the trailing
`close` on every path); non-success status returns the status code and
the remote error built from the request's method, URL and status text,
without reading the body; a nil target returns the status code with no
decode; otherwise the JSON decoder reads from the body, a decode failure
returns status 500 with the decode error, success returns the status
code. -/
def unmarshalResponse {α : Type} (response : GoResponse)
    (target : Option (DecodeTarget α)) :
    (Nat × Option GoError) × List BodyOp :=
  if !isSuccess response.StatusCode then
    ((response.StatusCode,
      some (.remoteError response.ReqMethod response.ReqURL response.Status)),
     [.close])
  else
    match target with
    | none => ((response.StatusCode, none), [.close])
    | some decodeTarget =>
      match decodeTarget response.Body with
      | (.error msg, n) =>
        ((StatusInternalServerError, some (.decodeError msg)), [.read n, .close])
      | (.ok _, n) => ((response.StatusCode, none), [.read n, .close])

/-- Go `validateConfig`'s accumulated list of invalid required fields, in
struct order (`Issuer` carries no `required` tag and is skipped; string
fields are invalid when empty, the `time.Duration` field when ≤ 0). -/
def invalidFields (config : Config) : List String :=
  (if config.MasterBaseURL = "" then ["MasterBaseURL"] else []) ++
  (if config.MasterRole = "" then ["MasterRole"] else []) ++
  (if config.MasterSecret = "" then ["MasterSecret"] else []) ++
  (if config.SlaveBaseURL = "" then ["SlaveBaseURL"] else []) ++
  (if config.SlaveRole = "" then ["SlaveRole"] else []) ++
  (if config.SlaveSecret = "" then ["SlaveSecret"] else []) ++
  (if config.Timeout ≤ 0 then ["Timeout"] else [])

/-- Go `validateConfig`: collects every invalid required field and fails
naming all of them (the Go error message joins the names with newlines);
succeeds when none is invalid. -/
def validateConfig (config : Config) : Option GoError :=
  if invalidFields config = [] then none
  else some (.invalidConfig (invalidFields config))

/-- Go `Agent`: the configuration plus the two injected capabilities. The
HTTP client maps a request to a response or a transport error; the JWT
generator returns a token string together with an optional error, just
as the Go `JWTGenerator` returns both values. -/
structure Agent where
  config : Config
  httpClient : GoRequest → Except GoError GoResponse
  generateJWT : Claims → String → String × Option GoError

/-- Go `Agent.generateReadTokenStr`: claims for the slave role signed
with the slave secret; the returned string is `"Bearer " ++ token` and
the generator's error is passed through alongside it. -/
def Agent.generateReadTokenStr (agent : Agent) (now : Int) :
    String × Option GoError :=
  let claims := generateClaims agent.config.SlaveRole agent.config now
  let r := agent.generateJWT claims agent.config.SlaveSecret
  ("Bearer " ++ r.fst, r.snd)

/-- Go `Agent.generateWriteTokenStr`: claims for the master role signed
with the master secret; the returned string is `"Bearer " ++ token` and
the generator's error is passed through alongside it. -/
def Agent.generateWriteTokenStr (agent : Agent) (now : Int) :
    String × Option GoError :=
  let claims := generateClaims agent.config.MasterRole agent.config now
  let r := agent.generateJWT claims agent.config.MasterSecret
  ("Bearer " ++ r.fst, r.snd)

/-- Go `Agent.newReadRequest`: mints the read token (failure propagates
unchanged) and builds the request with a nil body. -/
def Agent.newReadRequest (agent : Agent) (now : Int) (method urlStr : String) :
    Except GoError GoRequest :=
  match agent.generateReadTokenStr now with
  | (_, some e) => .error e
  | (tokenStr, none) => newRequest method urlStr tokenStr none

/-- Go `Agent.newWriteRequest`: mints the write token (failure propagates
unchanged) and builds the request with the given body. -/
def Agent.newWriteRequest (agent : Agent) (now : Int) (method urlStr : String)
    (body : Option String) : Except GoError GoRequest :=
  match agent.generateWriteTokenStr now with
  | (_, some e) => .error e
  | (tokenStr, none) => newRequest method urlStr tokenStr body

/-- Go `Agent.NewRequest`: empty URL and empty method fail first, in that
order; a GET becomes a read request (slave identity, nil body), any
other method a write request (master identity, given body). -/
def Agent.NewRequest (agent : Agent) (now : Int) (method urlStr : String)
    (body : Option String) : Except GoError GoRequest :=
  if urlStr = "" then .error .missingRequestURL
  else if method = "" then .error .missingRequestMethod
  else if method = MethodGet then agent.newReadRequest now method urlStr
  else agent.newWriteRequest now method urlStr body

/-- Go `Agent.sendRequest`: builds the request (failure yields no
transport activity) and hands it to the HTTP client; the second
component records the requests given to the client. -/
def Agent.sendRequest (agent : Agent) (now : Int) (method urlStr : String)
    (body : Option String) : Except GoError GoResponse × List GoRequest :=
  match agent.NewRequest now method urlStr body with
  | .error e => (.error e, [])
  | .ok request => (agent.httpClient request, [request])

/-- The loop body of Go `Agent.Ping` over its (name, url) slice: the
first probe that errs or answers a non-success status stops the loop
with an error naming that side; otherwise the loop continues. -/
def pingLoop (agent : Agent) (now : Int) :
    List (String × String) → Option GoError × List GoRequest
  | [] => (none, [])
  | entry :: rest =>
    match agent.sendRequest now MethodGet entry.snd none with
    | (.error e, l) => (some (.serviceError entry.fst e), l)
    | (.ok response, l) =>
      if !isSuccess response.StatusCode then
        (some (.serviceError entry.fst (.errorString response.Status)), l)
      else
        let r := pingLoop agent now rest
        (r.fst, l ++ r.snd)

/-- Go `Agent.Ping`: GET probes against the master base URL then the
slave base URL, failing fast. -/
def Agent.Ping (agent : Agent) (now : Int) : Option GoError × List GoRequest :=
  pingLoop agent now
    [("master", agent.config.MasterBaseURL), ("slave", agent.config.SlaveBaseURL)]

/-- Go `Agent.Get`: URL from the slave base URL, table and query; GET
with a nil body. -/
def Agent.Get (agent : Agent) (now : Int) (table : String)
    (query : Option QueryParams) : Except GoError GoResponse × List GoRequest :=
  match buildURLStr agent.config.SlaveBaseURL table query with
  | .error e => (.error e, [])
  | .ok urlStr => agent.sendRequest now MethodGet urlStr none

/-- Go `Agent.GetJSON`: `Get`, then the response normalized through
`unmarshalResponse` with the given target (a `Get` failure yields
status 0 with that error). -/
def Agent.GetJSON {α : Type} (agent : Agent) (now : Int) (table : String)
    (query : Option QueryParams) (target : Option (DecodeTarget α)) :
    (Nat × Option GoError) × List GoRequest :=
  match agent.Get now table query with
  | (.error e, l) => ((0, some e), l)
  | (.ok response, l) => ((unmarshalResponse response target).fst, l)

/-- Go `Agent.Post`: URL from the master base URL and table with no
query; POST with the given body. -/
def Agent.Post (agent : Agent) (now : Int) (table : String)
    (body : Option String) : Except GoError GoResponse × List GoRequest :=
  match buildURLStr agent.config.MasterBaseURL table none with
  | .error e => (.error e, [])
  | .ok urlStr => agent.sendRequest now MethodPost urlStr body

/-- Go `Agent.PostAndReturn`: like `Post` but the request additionally
carries the `Prefer: return=representation` header. -/
def Agent.PostAndReturn (agent : Agent) (now : Int) (table : String)
    (body : Option String) : Except GoError GoResponse × List GoRequest :=
  match buildURLStr agent.config.MasterBaseURL table none with
  | .error e => (.error e, [])
  | .ok urlStr =>
    match agent.NewRequest now MethodPost urlStr body with
    | .error e => (.error e, [])
    | .ok request =>
      let request := { request with
        Header := request.Header ++ [("Prefer", "return=representation")] }
      (agent.httpClient request, [request])

/-- Go `Agent.PostJSON`. The `payload` argument models the outcome of
`jsonEncode(payload)` in Go: the encoded bytes together with the
encoder's optional error (the Go encoder returns both). An encode error
returns status 0 with that error before any request is built; a nil
target posts via `Post` and normalizes without decoding; a target posts
via `PostAndReturn` and normalizes into the target. -/
def Agent.PostJSON {α : Type} (agent : Agent) (now : Int) (table : String)
    (payload : String × Option GoError) (target : Option (DecodeTarget α)) :
    (Nat × Option GoError) × List GoRequest :=
  match payload with
  | (_, some e) => ((0, some e), [])
  | (body, none) =>
    match target with
    | none =>
      match agent.Post now table (some body) with
      | (.error e, l) => ((0, some e), l)
      | (.ok response, l) =>
        ((unmarshalResponse response (none : Option (DecodeTarget α))).fst, l)
    | some decodeTarget =>
      match agent.PostAndReturn now table (some body) with
      | (.error e, l) => ((0, some e), l)
      | (.ok response, l) =>
        ((unmarshalResponse response (some decodeTarget)).fst, l)

/-- Go `Agent.Patch`: URL from the master base URL, table and query;
PATCH with the given body. -/
def Agent.Patch (agent : Agent) (now : Int) (table : String)
    (query : Option QueryParams) (body : Option String) :
    Except GoError GoResponse × List GoRequest :=
  match buildURLStr agent.config.MasterBaseURL table query with
  | .error e => (.error e, [])
  | .ok urlStr => agent.sendRequest now MethodPatch urlStr body

/-- Go `Agent.PatchJSON`: the `payload` argument models `jsonEncode` as
in `PostJSON`; then `Patch`, then normalization with a nil target. -/
def Agent.PatchJSON (agent : Agent) (now : Int) (table : String)
    (query : Option QueryParams) (payload : String × Option GoError) :
    (Nat × Option GoError) × List GoRequest :=
  match payload with
  | (_, some e) => ((0, some e), [])
  | (body, none) =>
    match agent.Patch now table query (some body) with
    | (.error e, l) => ((0, some e), l)
    | (.ok response, l) =>
      ((unmarshalResponse response (none : Option (DecodeTarget PUnit))).fst, l)

/-- Go `Agent.Delete`: URL from the master base URL, table and query;
DELETE with a nil body. -/
def Agent.Delete (agent : Agent) (now : Int) (table : String)
    (query : Option QueryParams) : Except GoError GoResponse × List GoRequest :=
  match buildURLStr agent.config.MasterBaseURL table query with
  | .error e => (.error e, [])
  | .ok urlStr => agent.sendRequest now MethodDelete urlStr none

/-- Go `Agent.DeleteJSON`: `Delete`, then normalization with a nil
target. -/
def Agent.DeleteJSON (agent : Agent) (now : Int) (table : String)
    (query : Option QueryParams) : (Nat × Option GoError) × List GoRequest :=
  match agent.Delete now table query with
  | (.error e, l) => ((0, some e), l)
  | (.ok response, l) =>
    ((unmarshalResponse response (none : Option (DecodeTarget PUnit))).fst, l)

/-- Go `NewAgent`: nil config, nil client and nil generator fail first,
in that order; then the config is validated; on success the agent is
assembled. -/
def NewAgent (config : Option Config)
    (httpClient : Option (GoRequest → Except GoError GoResponse))
    (jwtGenerator : Option (Claims → String → String × Option GoError)) :
    Except GoError Agent :=
  match config with
  | none => .error .missingConfigParams
  | some cfg =>
    match httpClient with
    | none => .error .missingHTTPClient
    | some client =>
      match jwtGenerator with
      | none => .error .missingJWTGenerator
      | some gen =>
        match validateConfig cfg with
        | some e => .error e
        | none => .ok { config := cfg, httpClient := client, generateJWT := gen }

/-! Helper lemmas shared by several developments below. -/

/-- A request handed to the HTTP client by `sendRequest` is exactly the
request `NewRequest` built. -/
theorem mem_sendRequest_snd {a : Agent} {now : Int} {method urlStr : String}
    {body : Option String} {request : GoRequest}
    (h : request ∈ (a.sendRequest now method urlStr body).snd) :
    a.NewRequest now method urlStr body = .ok request := by
  unfold Agent.sendRequest at h
  cases hn : a.NewRequest now method urlStr body with
  | error e => rw [hn] at h; simp at h
  | ok r => rw [hn] at h; simp at h; rw [h]

/-- Characterization of a successfully built request: the URL string and
method were nonempty, the URL parsed, and the request carries the token
of the identity selected by the method (replica for GET, primary
otherwise) with the corresponding body handling. -/
theorem NewRequest_ok {a : Agent} {now : Int} {method urlStr : String}
    {body : Option String} {request : GoRequest}
    (h : a.NewRequest now method urlStr body = .ok request) :
    urlStr ≠ "" ∧ method ≠ "" ∧
    ∃ u, urlParse urlStr = .ok u ∧
      (if method = MethodGet then
        (a.generateReadTokenStr now).snd = none ∧
        request = { Method := method, URL := u, urlStr := urlStr, Body := none,
                    Header := [("Authorization", (a.generateReadTokenStr now).fst)] }
       else
        (a.generateWriteTokenStr now).snd = none ∧
        request = { Method := method, URL := u, urlStr := urlStr, Body := body,
                    Header := [("Authorization", (a.generateWriteTokenStr now).fst)] }) := by
  unfold Agent.NewRequest at h
  by_cases hu : urlStr = "" <;> simp [hu] at h
  by_cases hm : method = "" <;> simp [hm] at h
  refine ⟨hu, hm, ?_⟩
  by_cases hg : method = MethodGet <;> simp [hg] at h ⊢
  · unfold Agent.newReadRequest at h
    cases ht : a.generateReadTokenStr now with
    | mk tok err =>
      cases err with
      | some e => rw [ht] at h; simp at h
      | none =>
        rw [ht] at h
        simp at h
        unfold newRequest at h
        cases hp : urlParse urlStr with
        | error e => rw [hp] at h; simp at h
        | ok u =>
          rw [hp] at h
          simp at h
          exact ⟨u, rfl, rfl, h.symm⟩
  · unfold Agent.newWriteRequest at h
    cases ht : a.generateWriteTokenStr now with
    | mk tok err =>
      cases err with
      | some e => rw [ht] at h; simp at h
      | none =>
        rw [ht] at h
        simp at h
        unfold newRequest at h
        cases hp : urlParse urlStr with
        | error e => rw [hp] at h; simp at h
        | ok u =>
          rw [hp] at h
          simp at h
          exact ⟨u, rfl, rfl, h.symm⟩

/-- A concrete agent used by several concrete instances below: distinct
master and slave base URLs, a transport that always answers 200, and a
signer that returns the claims' role as the token. -/
def demoAgent : Agent :=
  { config :=
      { Issuer := "iss", MasterBaseURL := "http://master", MasterRole := "masterRole",
        MasterSecret := "masterSecret", SlaveBaseURL := "http://slave",
        SlaveRole := "slaveRole", SlaveSecret := "slaveSecret", Timeout := 5 }
    httpClient := fun _ =>
      .ok { StatusCode := 200, Status := "200 OK", ReqMethod := "GET",
            ReqURL := "", Body := "{}" }
    generateJWT := fun claims _ => (claims.Role, none) }

/-- C3: `buildURLStr` fails with the missing-path error when the
resource path is empty, regardless of the other inputs (even a
malformed base URL); when the base URL does not parse it fails with the
parse error; otherwise it deterministically returns the base URL with
its path replaced by the resource path and its query replaced by the
encoded query params (absent params give an empty query string, and any
query present on the base URL is discarded, since the query is rebuilt
from the params alone); identical inputs give identical outputs. -/
theorem buildURLStr_spec :
    (∀ baseURL queryParams,
      buildURLStr baseURL "" queryParams = .error .missingURLPath) ∧
    (∀ baseURL path queryParams msg, path ≠ "" → urlParse baseURL = .error msg →
      buildURLStr baseURL path queryParams = .error (.urlParseError msg)) ∧
    (∀ baseURL path queryParams u, path ≠ "" → urlParse baseURL = .ok u →
      buildURLStr baseURL path queryParams =
        .ok (GoURL.toString
          { u with
              Path := path,
              RawQuery := (match queryParams with
                           | none => ""
                           | some q => q.encode) })) ∧
    (∀ baseURL path queryParams,
      buildURLStr baseURL path queryParams = buildURLStr baseURL path queryParams) := by
  refine ⟨fun _ _ => rfl, ?_, ?_, fun _ _ _ => rfl⟩
  · intro baseURL path queryParams msg hp hparse
    simp [buildURLStr, hp, hparse]
  · intro baseURL path queryParams u hp hparse
    simp [buildURLStr, hp, hparse]

/-- Witness for C3 at concrete inputs: the base URL's own query `x=1`
and path `/old` are discarded and replaced; a malformed base with an
empty path still reports the missing path. -/
theorem buildURLStr_spec_witness :
    buildURLStr "http://h/old?x=1" "t" none = .ok "http://h/t" ∧
    buildURLStr "://bad/" "t" none =
      .error (.urlParseError "missing protocol scheme") ∧
    buildURLStr "://bad/" "" none = .error .missingURLPath := by
  refine ⟨?_, ?_, ?_⟩
  · have h := buildURLStr_spec.2.2.1 "http://h/old?x=1" "t" none
      { Scheme := "http", Host := "h", Path := "/old", RawQuery := "x=1" }
      (by decide) (by rfl)
    exact h.trans (by rfl)
  · exact buildURLStr_spec.2.1 "://bad/" "t" none "missing protocol scheme"
      (by decide) (by rfl)
  · exact buildURLStr_spec.1 "://bad/" none

/-- C1 counterexample: `Ping` on a concrete agent (distinct master and
slave base URLs, a signer that returns the claims' role as the token)
issues a GET request through the Agent whose target URL is the master
base URL, not the slave one — so a GET does not always target the
replica base URL. The header also shows the probe carries the replica
role's token even though it goes to the master address. -/
theorem routing_pure_function_counterexample :
    (demoAgent.Ping 0).snd.map (fun r => (r.Method, r.urlStr, r.Header)) =
      [("GET", "http://master", [("Authorization", "Bearer slaveRole")]),
       ("GET", "http://slave", [("Authorization", "Bearer slaveRole")])] ∧
    demoAgent.config.MasterBaseURL ≠ demoAgent.config.SlaveBaseURL := by
  exact ⟨by rfl, by decide⟩

/-- C1 (amended): the minted identity is a pure function of the HTTP
method — every request the Agent builds carries the replica token when
the method is GET and the primary token otherwise, with a nil body
forced on GET — and the table-addressed operations route GETs to a URL
built on the slave base URL and POST/PATCH/DELETE to one built on the
master base URL; the JSON variants send exactly the requests of their
raw counterparts. (`Ping` is the exception for endpoint selection: it
sends a GET probe to the master base address too.) -/
theorem routing_by_method (a : Agent) (now : Int) :
    (∀ method urlStr body request,
      a.NewRequest now method urlStr body = .ok request →
        request.Method = method ∧
        request.Header = [("Authorization",
          if method = MethodGet then (a.generateReadTokenStr now).fst
          else (a.generateWriteTokenStr now).fst)] ∧
        request.Body = (if method = MethodGet then none else body)) ∧
    (∀ table query urlStr, buildURLStr a.config.SlaveBaseURL table query = .ok urlStr →
      ∀ request ∈ (a.Get now table query).snd,
        request.Method = MethodGet ∧ request.urlStr = urlStr ∧
        request.Header = [("Authorization", (a.generateReadTokenStr now).fst)]) ∧
    (∀ table urlStr, buildURLStr a.config.MasterBaseURL table none = .ok urlStr →
      ∀ body request, request ∈ (a.Post now table body).snd →
        request.Method = MethodPost ∧ request.urlStr = urlStr ∧
        request.Header = [("Authorization", (a.generateWriteTokenStr now).fst)]) ∧
    (∀ table urlStr, buildURLStr a.config.MasterBaseURL table none = .ok urlStr →
      ∀ body request, request ∈ (a.PostAndReturn now table body).snd →
        request.Method = MethodPost ∧ request.urlStr = urlStr ∧
        request.Header = [("Authorization", (a.generateWriteTokenStr now).fst),
                          ("Prefer", "return=representation")]) ∧
    (∀ table query urlStr, buildURLStr a.config.MasterBaseURL table query = .ok urlStr →
      ∀ body request, request ∈ (a.Patch now table query body).snd →
        request.Method = MethodPatch ∧ request.urlStr = urlStr ∧
        request.Header = [("Authorization", (a.generateWriteTokenStr now).fst)]) ∧
    (∀ table query urlStr, buildURLStr a.config.MasterBaseURL table query = .ok urlStr →
      ∀ request ∈ (a.Delete now table query).snd,
        request.Method = MethodDelete ∧ request.urlStr = urlStr ∧
        request.Header = [("Authorization", (a.generateWriteTokenStr now).fst)]) ∧
    (∀ table query (target : Option (DecodeTarget PUnit)),
      (a.GetJSON now table query target).snd = (a.Get now table query).snd) ∧
    (∀ table body (target : Option (DecodeTarget PUnit)),
      (a.PostJSON now table (body, none) target).snd =
        (match target with
         | none => (a.Post now table (some body)).snd
         | some _ => (a.PostAndReturn now table (some body)).snd)) ∧
    (∀ table query body,
      (a.PatchJSON now table query (body, none)).snd =
        (a.Patch now table query (some body)).snd) ∧
    (∀ table query,
      (a.DeleteJSON now table query).snd = (a.Delete now table query).snd) := by
  have hreq : ∀ method urlStr body request,
      a.NewRequest now method urlStr body = .ok request →
        request.Method = method ∧
        request.Header = [("Authorization",
          if method = MethodGet then (a.generateReadTokenStr now).fst
          else (a.generateWriteTokenStr now).fst)] ∧
        request.Body = (if method = MethodGet then none else body) := by
    intro method urlStr body request h
    obtain ⟨-, -, u, -, hif⟩ := NewRequest_ok h
    by_cases hg : method = MethodGet <;> simp [hg] at hif ⊢ <;>
      simp [hif.2]
  have hsend : ∀ method urlStr body request,
      request ∈ (a.sendRequest now method urlStr body).snd →
        request.Method = method ∧ request.urlStr = urlStr ∧
        request.Header = [("Authorization",
          if method = MethodGet then (a.generateReadTokenStr now).fst
          else (a.generateWriteTokenStr now).fst)] := by
    intro method urlStr body request hmem
    have hok := mem_sendRequest_snd hmem
    obtain ⟨-, -, u, -, hif⟩ := NewRequest_ok hok
    by_cases hg : method = MethodGet <;> simp [hg] at hif ⊢ <;>
      simp [hif.2]
  refine ⟨hreq, ?_, ?_, ?_, ?_, ?_, ?_, ?_, ?_, ?_⟩
  · intro table query urlStr hb request hmem
    unfold Agent.Get at hmem
    rw [hb] at hmem
    have h := hsend MethodGet urlStr none request hmem
    exact ⟨h.1, h.2.1, by simpa using h.2.2⟩
  · intro table urlStr hb body request hmem
    unfold Agent.Post at hmem
    rw [hb] at hmem
    have h := hsend MethodPost urlStr body request hmem
    refine ⟨h.1, h.2.1, ?_⟩
    have : MethodPost ≠ MethodGet := by decide
    simpa [this] using h.2.2
  · intro table urlStr hb body request hmem
    have hmem' : request ∈
        (match a.NewRequest now MethodPost urlStr body with
         | Except.error e => ((Except.error e : Except GoError GoResponse),
                              ([] : List GoRequest))
         | Except.ok req =>
           (a.httpClient
              { req with Header := req.Header ++ [("Prefer", "return=representation")] },
            [{ req with
               Header := req.Header ++ [("Prefer", "return=representation")] }])).snd := by
      unfold Agent.PostAndReturn at hmem
      rw [hb] at hmem
      exact hmem
    cases hn : a.NewRequest now MethodPost urlStr body with
    | error e => rw [hn] at hmem'; simp at hmem'
    | ok r =>
      rw [hn] at hmem'
      simp at hmem'
      obtain ⟨-, -, u, -, hif⟩ := NewRequest_ok hn
      have hne : MethodPost ≠ MethodGet := by decide
      rw [if_neg hne] at hif
      subst hmem'
      simp [hif.2, hne]
  · intro table query urlStr hb body request hmem
    unfold Agent.Patch at hmem
    rw [hb] at hmem
    have h := hsend MethodPatch urlStr body request hmem
    refine ⟨h.1, h.2.1, ?_⟩
    have : MethodPatch ≠ MethodGet := by decide
    simpa [this] using h.2.2
  · intro table query urlStr hb request hmem
    unfold Agent.Delete at hmem
    rw [hb] at hmem
    have h := hsend MethodDelete urlStr none request hmem
    refine ⟨h.1, h.2.1, ?_⟩
    have : MethodDelete ≠ MethodGet := by decide
    simpa [this] using h.2.2
  · intro table query target
    unfold Agent.GetJSON
    cases h : a.Get now table query with
    | mk r l => cases r <;> simp [h]
  · intro table body target
    cases target with
    | none =>
      simp only [Agent.PostJSON]
      cases h : a.Post now table (some body) with
      | mk r l => cases r <;> simp [h]
    | some dec =>
      simp only [Agent.PostJSON]
      cases h : a.PostAndReturn now table (some body) with
      | mk r l => cases r <;> simp [h]
  · intro table query body
    unfold Agent.PatchJSON
    cases h : a.Patch now table query (some body) with
    | mk r l => cases r <;> simp [h]
  · intro table query
    unfold Agent.DeleteJSON
    cases h : a.Delete now table query with
    | mk r l => cases r <;> simp [h]

/-- Every request that `pingLoop` hands to the transport is a GET with a
nil body, carries the read token, and targets one of the listed
addresses. -/
theorem pingLoop_mem {a : Agent} {now : Int} {entries : List (String × String)}
    {request : GoRequest} (h : request ∈ (pingLoop a now entries).snd) :
    request.Method = MethodGet ∧ request.Body = none ∧
    request.Header = [("Authorization", (a.generateReadTokenStr now).fst)] ∧
    ∃ entry ∈ entries, request.urlStr = entry.snd := by
  induction entries with
  | nil => simp [pingLoop] at h
  | cons e rest ih =>
    have hprobe : ∀ hm : request ∈ (a.sendRequest now MethodGet e.snd none).snd,
        request.Method = MethodGet ∧ request.Body = none ∧
        request.Header = [("Authorization", (a.generateReadTokenStr now).fst)] ∧
        request.urlStr = e.snd := by
      intro hm
      obtain ⟨-, -, u, -, hif⟩ := NewRequest_ok (mem_sendRequest_snd hm)
      rw [if_pos rfl] at hif
      simp [hif.2]
    unfold pingLoop at h
    cases hs : a.sendRequest now MethodGet e.snd none with
    | mk r l =>
      rw [hs] at h
      cases r with
      | error err =>
        simp at h
        have hm : request ∈ (a.sendRequest now MethodGet e.snd none).snd := by
          rw [hs]; exact h
        obtain ⟨h1, h2, h3, h4⟩ := hprobe hm
        exact ⟨h1, h2, h3, e, by simp, h4⟩
      | ok response =>
        by_cases hsucc : isSuccess response.StatusCode
        · simp [hsucc] at h
          rcases h with h | h
          · have hm : request ∈ (a.sendRequest now MethodGet e.snd none).snd := by
              rw [hs]; exact h
            obtain ⟨h1, h2, h3, h4⟩ := hprobe hm
            exact ⟨h1, h2, h3, e, by simp, h4⟩
          · obtain ⟨h1, h2, h3, entry, hentry, h4⟩ := ih h
            exact ⟨h1, h2, h3, entry, by simp [hentry], h4⟩
        · simp [hsucc] at h
          have hm : request ∈ (a.sendRequest now MethodGet e.snd none).snd := by
            rw [hs]; exact h
          obtain ⟨h1, h2, h3, h4⟩ := hprobe hm
          exact ⟨h1, h2, h3, e, by simp, h4⟩

/-- C9: every request `Ping` hands to the transport is a GET with a nil
body carrying the read (slave-identity) token in its Authorization
header, and targets one of the two base addresses — so the probe against
the master base address is also authenticated with the replica role and
secret, and the primary identity is never used by `Ping`. -/
theorem Ping_probes_use_read_identity (a : Agent) (now : Int) :
    ∀ request ∈ (a.Ping now).snd,
      request.Method = MethodGet ∧ request.Body = none ∧
      request.Header = [("Authorization", (a.generateReadTokenStr now).fst)] ∧
      (request.urlStr = a.config.MasterBaseURL ∨
       request.urlStr = a.config.SlaveBaseURL) := by
  intro request h
  obtain ⟨h1, h2, h3, entry, hentry, h4⟩ := pingLoop_mem h
  refine ⟨h1, h2, h3, ?_⟩
  simp at hentry
  rcases hentry with he | he <;> rw [he] at h4 <;> simp [h4]

/-- The request `demoAgent`'s probes send to the master base address. -/
def demoPingRequest : GoRequest :=
  { Method := "GET", URL := { Scheme := "http", Host := "master", Path := "", RawQuery := "" },
    urlStr := "http://master", Body := none,
    Header := [("Authorization", "Bearer slaveRole")] }

/-- Witness for C9: on the concrete `demoAgent`, the probe request to the
master base address is a GET carrying the replica-role token. -/
theorem Ping_probes_use_read_identity_witness :
    demoPingRequest.Method = MethodGet ∧ demoPingRequest.Body = none ∧
    demoPingRequest.Header =
      [("Authorization", (demoAgent.generateReadTokenStr 0).fst)] ∧
    (demoPingRequest.urlStr = demoAgent.config.MasterBaseURL ∨
     demoPingRequest.urlStr = demoAgent.config.SlaveBaseURL) :=
  Ping_probes_use_read_identity demoAgent 0 demoPingRequest (by decide)

/-- C4: `Ping` probes the master base address before the slave one and
fails fast: a master probe that errs or answers a non-success status
makes `Ping` fail naming "master", with only the master-side requests
having been handed to the transport (the slave probe never happens); a
failing slave probe after a successful master probe makes `Ping` fail
naming "slave"; and `Ping` succeeds exactly when both probes answer
with a success status. -/
theorem Ping_fail_fast (a : Agent) (now : Int) :
    (∀ e l, a.sendRequest now MethodGet a.config.MasterBaseURL none = (.error e, l) →
      a.Ping now = (some (.serviceError "master" e), l)) ∧
    (∀ response l,
      a.sendRequest now MethodGet a.config.MasterBaseURL none = (.ok response, l) →
      ¬ isSuccess response.StatusCode →
      a.Ping now = (some (.serviceError "master" (.errorString response.Status)), l)) ∧
    (∀ response l e l2,
      a.sendRequest now MethodGet a.config.MasterBaseURL none = (.ok response, l) →
      isSuccess response.StatusCode →
      a.sendRequest now MethodGet a.config.SlaveBaseURL none = (.error e, l2) →
      a.Ping now = (some (.serviceError "slave" e), l ++ l2)) ∧
    (∀ response l response2 l2,
      a.sendRequest now MethodGet a.config.MasterBaseURL none = (.ok response, l) →
      isSuccess response.StatusCode →
      a.sendRequest now MethodGet a.config.SlaveBaseURL none = (.ok response2, l2) →
      a.Ping now =
        ((if isSuccess response2.StatusCode then none
          else some (.serviceError "slave" (.errorString response2.Status))), l ++ l2)) ∧
    ((a.Ping now).fst = none ↔
      ∃ response l response2 l2,
        a.sendRequest now MethodGet a.config.MasterBaseURL none = (.ok response, l) ∧
        isSuccess response.StatusCode ∧
        a.sendRequest now MethodGet a.config.SlaveBaseURL none = (.ok response2, l2) ∧
        isSuccess response2.StatusCode) := by
  have p1 : ∀ e l,
      a.sendRequest now MethodGet a.config.MasterBaseURL none = (.error e, l) →
      a.Ping now = (some (.serviceError "master" e), l) := by
    intro e l h
    unfold Agent.Ping
    rw [pingLoop]
    dsimp only
    rw [h]
  have p2 : ∀ response l,
      a.sendRequest now MethodGet a.config.MasterBaseURL none = (.ok response, l) →
      ¬ isSuccess response.StatusCode →
      a.Ping now = (some (.serviceError "master" (.errorString response.Status)), l) := by
    intro response l h hns
    unfold Agent.Ping
    rw [pingLoop]
    dsimp only
    rw [h]
    simp at hns
    simp [hns]
  have p3 : ∀ response l e l2,
      a.sendRequest now MethodGet a.config.MasterBaseURL none = (.ok response, l) →
      isSuccess response.StatusCode →
      a.sendRequest now MethodGet a.config.SlaveBaseURL none = (.error e, l2) →
      a.Ping now = (some (.serviceError "slave" e), l ++ l2) := by
    intro response l e l2 h hs h2
    unfold Agent.Ping
    rw [pingLoop]
    dsimp only
    rw [h]
    simp [hs]
    rw [pingLoop]
    dsimp only
    rw [h2]
    simp
  have p4 : ∀ response l response2 l2,
      a.sendRequest now MethodGet a.config.MasterBaseURL none = (.ok response, l) →
      isSuccess response.StatusCode →
      a.sendRequest now MethodGet a.config.SlaveBaseURL none = (.ok response2, l2) →
      a.Ping now =
        ((if isSuccess response2.StatusCode then none
          else some (.serviceError "slave" (.errorString response2.Status))), l ++ l2) := by
    intro response l response2 l2 h hs h2
    unfold Agent.Ping
    rw [pingLoop]
    dsimp only
    rw [h]
    simp [hs]
    rw [pingLoop]
    dsimp only
    rw [h2]
    by_cases hs2 : isSuccess response2.StatusCode <;> simp [hs2, pingLoop]
  refine ⟨p1, p2, p3, p4, ?_⟩
  constructor
  · intro h
    cases hs1 : a.sendRequest now MethodGet a.config.MasterBaseURL none with
    | mk r1 l1 =>
      cases r1 with
      | error e => rw [p1 e l1 hs1] at h; simp at h
      | ok response =>
        by_cases hsucc : isSuccess response.StatusCode
        · cases hs2 : a.sendRequest now MethodGet a.config.SlaveBaseURL none with
          | mk r2 l2 =>
            cases r2 with
            | error e => rw [p3 response l1 e l2 hs1 hsucc hs2] at h; simp at h
            | ok response2 =>
              by_cases hsucc2 : isSuccess response2.StatusCode
              · exact ⟨response, l1, response2, l2, rfl, hsucc, rfl, hsucc2⟩
              · rw [p4 response l1 response2 l2 hs1 hsucc hs2] at h
                simp [hsucc2] at h
        · rw [p2 response l1 hs1 hsucc] at h; simp at h
  · rintro ⟨response, l, response2, l2, h1, hs1, h2, hs2⟩
    rw [p4 response l response2 l2 h1 hs1 h2]
    simp [hs2]

/-- A concrete agent whose transport always fails. -/
def failAgent : Agent :=
  { config := demoAgent.config,
    httpClient := fun _ => .error (.errorString "connection refused"),
    generateJWT := fun claims _ => (claims.Role, none) }

/-- Witness for C4: on the concrete `failAgent` the master probe's
transport fails, so `Ping` fails naming "master" and only the master
probe request was handed to the transport. -/
theorem Ping_fail_fast_witness :
    failAgent.Ping 0 =
      (some (.serviceError "master" (.errorString "connection refused")),
       [demoPingRequest]) :=
  (Ping_fail_fast failAgent 0).1 (.errorString "connection refused")
    [demoPingRequest] (by rfl)

/-- Witness for the amended C1 at a concrete input: the request the
concrete `demoAgent` builds for a GET carries the read token and a nil
body. -/
theorem routing_by_method_witness :
    demoPingRequest.Method = MethodGet ∧
    demoPingRequest.Header = [("Authorization",
      if MethodGet = MethodGet then (demoAgent.generateReadTokenStr 0).fst
      else (demoAgent.generateWriteTokenStr 0).fst)] ∧
    demoPingRequest.Body = (if MethodGet = MethodGet then none else none) :=
  (routing_by_method demoAgent 0).1 MethodGet "http://master" none
    demoPingRequest (by rfl)

/-- `wrapInt64` is the identity on the int64 range. -/
theorem wrapInt64_eq_self {n : Int} (h1 : -(2 ^ 63) ≤ n) (h2 : n < 2 ^ 63) :
    wrapInt64 n = n := by
  have e63 : (2 : Int) ^ 63 = 9223372036854775808 := by norm_num
  have e64 : (2 : Int) ^ 64 = 18446744073709551616 := by norm_num
  unfold wrapInt64
  rw [e63, e64]
  rw [e63] at h1 h2
  have h : (n + 9223372036854775808) % 18446744073709551616 =
      n + 9223372036854775808 := Int.emod_eq_of_lt (by omega) (by omega)
  omega

/-- A configuration that passes validation but whose `Timeout` (about
292.5 years in seconds) is large enough that the int64 product
`Timeout * time.Second` overflows. -/
def cfgOverflow : Config :=
  { Issuer := "iss", MasterBaseURL := "http://master", MasterRole := "masterRole",
    MasterSecret := "masterSecret", SlaveBaseURL := "http://slave",
    SlaveRole := "slaveRole", SlaveSecret := "slaveSecret",
    Timeout := 9223372037 }

/-- C2 counterexample: `cfgOverflow` passes validation with a positive
`Timeout`, yet the int64 product `Timeout * time.Second` wraps to a
negative duration, so at time 0 the minted expiry is `-9223372037`
rather than the claimed current-time-plus-lifetime `9223372037` — the
expiry does not always equal the current time plus the configured
`Timeout`. -/
theorem generateClaims_expiry_counterexample :
    validateConfig cfgOverflow = none ∧
    0 < cfgOverflow.Timeout ∧
    (generateClaims "role" cfgOverflow 0).ExpiresAt = -9223372037 ∧
    (0 : Int) / 1000000000 + cfgOverflow.Timeout = 9223372037 ∧
    (generateClaims "role" cfgOverflow 0).ExpiresAt ≠
      (0 : Int) / 1000000000 + cfgOverflow.Timeout :=
  ⟨by rfl, by decide, by decide, by decide, by decide⟩

/-- C2 (amended): the token issuer builds claims whose role field is the
given role and whose issuer is the configured issuer, and passes exactly
those claims with the role's secret to the injected signing capability
(the signer's error passed through alongside the `"Bearer "`-prefixed
token); whenever the configured `Timeout` is nonnegative and small
enough that `Timeout * time.Second` does not overflow int64
(`Timeout ≤ 9223372036`, about 292 years), the expiry equals the
current Unix time plus `Timeout` seconds — for larger
validation-passing `Timeout` the int64 multiplication wraps and the
expiry differs. -/
theorem generateClaims_spec (a : Agent) (now : Int)
    (h0 : 0 ≤ a.config.Timeout) (hub : a.config.Timeout ≤ 9223372036) :
    (∀ role, generateClaims role a.config now =
      { Role := role, Issuer := a.config.Issuer,
        ExpiresAt := now / 1000000000 + a.config.Timeout }) ∧
    a.generateReadTokenStr now =
      ("Bearer " ++ (a.generateJWT
          { Role := a.config.SlaveRole, Issuer := a.config.Issuer,
            ExpiresAt := now / 1000000000 + a.config.Timeout }
          a.config.SlaveSecret).fst,
       (a.generateJWT
          { Role := a.config.SlaveRole, Issuer := a.config.Issuer,
            ExpiresAt := now / 1000000000 + a.config.Timeout }
          a.config.SlaveSecret).snd) ∧
    a.generateWriteTokenStr now =
      ("Bearer " ++ (a.generateJWT
          { Role := a.config.MasterRole, Issuer := a.config.Issuer,
            ExpiresAt := now / 1000000000 + a.config.Timeout }
          a.config.MasterSecret).fst,
       (a.generateJWT
          { Role := a.config.MasterRole, Issuer := a.config.Issuer,
            ExpiresAt := now / 1000000000 + a.config.Timeout }
          a.config.MasterSecret).snd) := by
  have e63 : (2 : Int) ^ 63 = 9223372036854775808 := by norm_num
  have hexp : ∀ role, generateClaims role a.config now =
      { Role := role, Issuer := a.config.Issuer,
        ExpiresAt := now / 1000000000 + a.config.Timeout } := by
    intro role
    unfold generateClaims
    have hw : wrapInt64 (a.config.Timeout * 1000000000) =
        a.config.Timeout * 1000000000 :=
      wrapInt64_eq_self (by rw [e63]; omega) (by rw [e63]; omega)
    rw [hw, Int.add_mul_ediv_right now a.config.Timeout (by norm_num)]
  refine ⟨hexp, ?_, ?_⟩
  · simp only [Agent.generateReadTokenStr]
    rw [hexp a.config.SlaveRole]
  · simp only [Agent.generateWriteTokenStr]
    rw [hexp a.config.MasterRole]

/-- Witness for the amended C2: `demoAgent`'s five-second lifetime is in
the non-overflowing range, and at time 0 the minted claims carry
expiry 5. -/
theorem generateClaims_spec_witness :
    0 ≤ demoAgent.config.Timeout ∧ demoAgent.config.Timeout ≤ 9223372036 ∧
    generateClaims "r" demoAgent.config 0 =
      { Role := "r", Issuer := "iss", ExpiresAt := 5 } := by
  have h := generateClaims_spec demoAgent 0 (by decide) (by decide)
  exact ⟨by decide, by decide, (h.1 "r").trans (by decide)⟩

/-- C10: `Delete` and `DeleteJSON` take no body argument and every
request they hand to the transport is a DELETE with a nil body, even
though `NewRequest` routes a DELETE through the body-bearing write
request path. -/
theorem Delete_nil_body (a : Agent) (now : Int) (table : String)
    (query : Option QueryParams) :
    (∀ request ∈ (a.Delete now table query).snd,
      request.Method = MethodDelete ∧ request.Body = none) ∧
    (∀ request ∈ (a.DeleteJSON now table query).snd,
      request.Method = MethodDelete ∧ request.Body = none) ∧
    (∀ urlStr body, urlStr ≠ "" →
      a.NewRequest now MethodDelete urlStr body =
        a.newWriteRequest now MethodDelete urlStr body) := by
  have hdel : ∀ request ∈ (a.Delete now table query).snd,
      request.Method = MethodDelete ∧ request.Body = none := by
    intro request hmem
    unfold Agent.Delete at hmem
    cases hb : buildURLStr a.config.MasterBaseURL table query with
    | error e => rw [hb] at hmem; simp at hmem
    | ok urlStr =>
      rw [hb] at hmem
      obtain ⟨-, -, u, -, hif⟩ := NewRequest_ok (mem_sendRequest_snd hmem)
      have hne : MethodDelete ≠ MethodGet := by decide
      rw [if_neg hne] at hif
      simp [hif.2]
  have hjson : (a.DeleteJSON now table query).snd = (a.Delete now table query).snd := by
    unfold Agent.DeleteJSON
    cases h : a.Delete now table query with
    | mk r l => cases r <;> simp [h]
  refine ⟨hdel, ?_, ?_⟩
  · rw [hjson]; exact hdel
  · intro urlStr body hu
    unfold Agent.NewRequest
    have hm : MethodDelete ≠ "" := by decide
    have hg : MethodDelete ≠ MethodGet := by decide
    simp [hu, hm, hg]

/-- The request `demoAgent.Delete` sends for table `t`. -/
def demoDeleteRequest : GoRequest :=
  { Method := "DELETE",
    URL := { Scheme := "http", Host := "master", Path := "/t", RawQuery := "" },
    urlStr := "http://master/t", Body := none,
    Header := [("Authorization", "Bearer masterRole")] }

/-- Witness for C10: the concrete DELETE request `demoAgent` sends for
table `t` has a nil body. -/
theorem Delete_nil_body_witness :
    demoDeleteRequest.Method = MethodDelete ∧ demoDeleteRequest.Body = none :=
  (Delete_nil_body demoAgent 0 "t" none).1 demoDeleteRequest (by decide)

/-- C5 counterexample: on a non-success response with a five-byte body,
`unmarshalResponse` closes the body without reading any of it — the
body stream is closed, but not fully consumed, on that exit path. -/
theorem body_fully_consumed_counterexample :
    bytesRead (unmarshalResponse
      { StatusCode := 404, Status := "404 Not Found", ReqMethod := "GET",
        ReqURL := "http://h/t", Body := "hello" }
      (none : Option (DecodeTarget PUnit))).snd = 0 ∧
    ("hello" : String).length = 5 ∧
    (unmarshalResponse
      { StatusCode := 404, Status := "404 Not Found", ReqMethod := "GET",
        ReqURL := "http://h/t", Body := "hello" }
      (none : Option (DecodeTarget PUnit))).snd = [.close] := by
  exact ⟨by rfl, by rfl, by rfl⟩

/-- C5 (amended): on every exit path of `unmarshalResponse` (success,
remote error, decode error) the response body stream is closed exactly
once, with the close after any reads; the body is read only by the JSON
decoder on the success-with-target path, so it is not necessarily fully
consumed. -/
theorem unmarshalResponse_closes_once {α : Type} (response : GoResponse)
    (target : Option (DecodeTarget α)) :
    closeCount (unmarshalResponse response target).snd = 1 ∧
    (unmarshalResponse response target).snd.getLast? = some .close ∧
    (¬ isSuccess response.StatusCode →
      bytesRead (unmarshalResponse response target).snd = 0) ∧
    (target = none → bytesRead (unmarshalResponse response target).snd = 0) := by
  unfold unmarshalResponse
  by_cases h : isSuccess response.StatusCode <;>
    simp [h, closeCount, bytesRead]
  cases target with
  | none => simp [closeCount, bytesRead]
  | some decodeTarget =>
    cases hd : decodeTarget response.Body with
    | mk r n => cases r <;> simp [closeCount, bytesRead, hd]

/-- Witness for the amended C5 at a concrete input: a non-success
response is closed exactly once and nothing of its body is read. -/
theorem unmarshalResponse_closes_once_witness :
    closeCount (unmarshalResponse
      { StatusCode := 503, Status := "503 Service Unavailable", ReqMethod := "GET",
        ReqURL := "http://h/t", Body := "x" }
      (none : Option (DecodeTarget PUnit))).snd = 1 ∧
    bytesRead (unmarshalResponse
      { StatusCode := 503, Status := "503 Service Unavailable", ReqMethod := "GET",
        ReqURL := "http://h/t", Body := "x" }
      (none : Option (DecodeTarget PUnit))).snd = 0 := by
  have h := unmarshalResponse_closes_once
    { StatusCode := 503, Status := "503 Service Unavailable", ReqMethod := "GET",
      ReqURL := "http://h/t", Body := "x" }
    (none : Option (DecodeTarget PUnit))
  exact ⟨h.1, h.2.2.1 (by decide)⟩

/-- C7: a success-status response with a decode target whose JSON decode
fails yields the internal-error sentinel 500 — not the response's own
status code — together with the decode error; a non-success response
yields its actual status code and the remote error carrying the request
method, URL and status text; and a decode error is never a remote
error. -/
theorem unmarshalResponse_error_paths {α : Type} (response : GoResponse) :
    (∀ (decodeTarget : DecodeTarget α) msg n,
      isSuccess response.StatusCode →
      decodeTarget response.Body = (.error msg, n) →
      (unmarshalResponse response (some decodeTarget)).fst =
        (StatusInternalServerError, some (.decodeError msg))) ∧
    (∀ (target : Option (DecodeTarget α)),
      ¬ isSuccess response.StatusCode →
      (unmarshalResponse response target).fst =
        (response.StatusCode,
         some (.remoteError response.ReqMethod response.ReqURL response.Status))) ∧
    (∀ msg method url status,
      GoError.decodeError msg ≠ GoError.remoteError method url status) := by
  refine ⟨?_, ?_, by intro msg method url status h; cases h⟩
  · intro decodeTarget msg n hs hd
    unfold unmarshalResponse
    simp [hs, hd]
  · intro target hns
    unfold unmarshalResponse
    simp at hns
    simp [hns]

/-- A decode target that always fails, consuming one byte. -/
def failDecode : DecodeTarget PUnit := fun _ => (.error "invalid character", 1)

/-- Witness for C7 at concrete inputs: a 200 response whose body fails to
decode reports status 500 with the decode error; a 404 response reports
status 404 with the remote error naming method, URL and status text. -/
theorem unmarshalResponse_error_paths_witness :
    (unmarshalResponse
      { StatusCode := 200, Status := "200 OK", ReqMethod := "GET",
        ReqURL := "http://h/t", Body := "not json" } (some failDecode)).fst =
      (StatusInternalServerError, some (.decodeError "invalid character")) ∧
    (unmarshalResponse
      { StatusCode := 404, Status := "404 Not Found", ReqMethod := "GET",
        ReqURL := "http://h/t", Body := "hello" }
      (none : Option (DecodeTarget PUnit))).fst =
      (404, some (.remoteError "GET" "http://h/t" "404 Not Found")) :=
  ⟨(unmarshalResponse_error_paths _).1 failDecode "invalid character" 1
      (by decide) (by rfl),
   (unmarshalResponse_error_paths _).2.1 none (by decide)⟩

/-- Membership in a conditional singleton list. -/
theorem mem_if_singleton {x y : String} {c : Prop} [Decidable c] :
    (x ∈ if c then [y] else ([] : List String)) ↔ c ∧ x = y := by
  split <;> simp_all

/-- Membership in the accumulated invalid-field list: a name is listed
exactly when it names a required field whose value is invalid. -/
theorem mem_invalidFields (c : Config) (x : String) :
    x ∈ invalidFields c ↔
      ((c.MasterBaseURL = "" ∧ x = "MasterBaseURL") ∨
       (c.MasterRole = "" ∧ x = "MasterRole") ∨
       (c.MasterSecret = "" ∧ x = "MasterSecret") ∨
       (c.SlaveBaseURL = "" ∧ x = "SlaveBaseURL") ∨
       (c.SlaveRole = "" ∧ x = "SlaveRole") ∨
       (c.SlaveSecret = "" ∧ x = "SlaveSecret") ∨
       (c.Timeout ≤ 0 ∧ x = "Timeout")) := by
  unfold invalidFields
  simp only [List.mem_append, mem_if_singleton, or_assoc]

/-- The failing validation result determines the field list. -/
theorem validateConfig_some {c : Config} {L : List String}
    (h : validateConfig c = some (.invalidConfig L)) : L = invalidFields c := by
  unfold validateConfig at h
  split at h
  · cases h
  · injection h with h
    injection h with h
    exact h.symm

/-- C6: for a configuration missing or invalidating any subset of the
required fields, construction fails with an error naming every one of
the missing or invalid fields, not just the first, and the `Issuer`
field is never required: validation succeeds exactly when all seven
required fields are valid; when it fails, the named list contains each
required field's name exactly when that field is empty (or, for
`Timeout`, not positive) and never contains `Issuer`; and `NewAgent`
fails with exactly the validation error. -/
theorem validateConfig_names_all (c : Config) :
    (validateConfig c = none ↔
      (c.MasterBaseURL ≠ "" ∧ c.MasterRole ≠ "" ∧ c.MasterSecret ≠ "" ∧
       c.SlaveBaseURL ≠ "" ∧ c.SlaveRole ≠ "" ∧ c.SlaveSecret ≠ "" ∧
       ¬ c.Timeout ≤ 0)) ∧
    (∀ L, validateConfig c = some (.invalidConfig L) →
      (("MasterBaseURL" ∈ L) ↔ c.MasterBaseURL = "") ∧
      (("MasterRole" ∈ L) ↔ c.MasterRole = "") ∧
      (("MasterSecret" ∈ L) ↔ c.MasterSecret = "") ∧
      (("SlaveBaseURL" ∈ L) ↔ c.SlaveBaseURL = "") ∧
      (("SlaveRole" ∈ L) ↔ c.SlaveRole = "") ∧
      (("SlaveSecret" ∈ L) ↔ c.SlaveSecret = "") ∧
      (("Timeout" ∈ L) ↔ c.Timeout ≤ 0) ∧
      "Issuer" ∉ L) ∧
    (∀ e, validateConfig c = some e →
      ∀ client gen, NewAgent (some c) (some client) (some gen) = .error e) := by
  refine ⟨?_, ?_, ?_⟩
  · unfold validateConfig
    constructor
    · intro h
      split at h
      · next hemp =>
        have hmem : ∀ x, x ∉ invalidFields c := by
          intro x hx
          rw [hemp] at hx
          simp at hx
        exact ⟨fun hbad => hmem "MasterBaseURL" ((mem_invalidFields c _).2 (by simp [hbad])),
          fun hbad => hmem "MasterRole" ((mem_invalidFields c _).2 (by simp [hbad])),
          fun hbad => hmem "MasterSecret" ((mem_invalidFields c _).2 (by simp [hbad])),
          fun hbad => hmem "SlaveBaseURL" ((mem_invalidFields c _).2 (by simp [hbad])),
          fun hbad => hmem "SlaveRole" ((mem_invalidFields c _).2 (by simp [hbad])),
          fun hbad => hmem "SlaveSecret" ((mem_invalidFields c _).2 (by simp [hbad])),
          fun hbad => hmem "Timeout" ((mem_invalidFields c _).2 (by simp [hbad]))⟩
      · cases h
    · intro ⟨h1, h2, h3, h4, h5, h6, h7⟩
      have : invalidFields c = [] := by
        unfold invalidFields
        simp [h1, h2, h3, h4, h5, h6, h7]
      simp [this]
  · intro L hL
    have hLe := validateConfig_some hL
    subst hLe
    refine ⟨?_, ?_, ?_, ?_, ?_, ?_, ?_, ?_⟩ <;>
      simp [mem_invalidFields]
  · intro e he client gen
    simp [NewAgent, he]

/-- A configuration with exactly two invalid required fields: an empty
master role and a zero timeout. -/
def demoBadConfig : Config :=
  { Issuer := "", MasterBaseURL := "http://master", MasterRole := "",
    MasterSecret := "masterSecret", SlaveBaseURL := "http://slave",
    SlaveRole := "slaveRole", SlaveSecret := "slaveSecret", Timeout := 0 }

/-- Witness for C6: on `demoBadConfig` validation fails naming both
`MasterRole` and `Timeout` (and not `Issuer`, which is also empty), and
construction fails with that error. -/
theorem validateConfig_names_all_witness :
    ("MasterRole" ∈ ["MasterRole", "Timeout"] ↔ demoBadConfig.MasterRole = "") ∧
    ("Timeout" ∈ ["MasterRole", "Timeout"] ↔ demoBadConfig.Timeout ≤ 0) ∧
    "Issuer" ∉ ["MasterRole", "Timeout"] ∧
    NewAgent (some demoBadConfig) (some demoAgent.httpClient)
        (some demoAgent.generateJWT) =
      .error (.invalidConfig ["MasterRole", "Timeout"]) := by
  have h := validateConfig_names_all demoBadConfig
  have h2 := h.2.1 ["MasterRole", "Timeout"] (by rfl)
  exact ⟨h2.2.1, h2.2.2.2.2.2.2.1,
    h2.2.2.2.2.2.2.2,
    h.2.2 (.invalidConfig ["MasterRole", "Timeout"]) (by rfl)
      demoAgent.httpClient demoAgent.generateJWT⟩

/-- Serializing a URL with a nonempty path yields a nonempty string. -/
theorem GoURL.toString_ne_empty {u : GoURL} (h : u.Path ≠ "") :
    GoURL.toString u ≠ "" := by
  intro hc
  have hp : u.Path.data ≠ [] := by
    intro hnil
    exact h (String.ext hnil)
  have hdata := congrArg String.data hc
  unfold GoURL.toString at hdata
  simp only [String.data_append, List.append_eq_nil] at hdata
  have hC := hdata.1.2
  split at hC
  · next heq => exact hp heq
  · next heq => exact hp (by rw [hC] at heq; exact heq.symm ▸ (by simp at heq))
  · next heq1 heq2 =>
    split at hC
    · exact hp hC
    · simp [String.data_append] at hC

/-- `buildURLStr` never returns an empty URL string. -/
theorem buildURLStr_ne_empty {baseURL path : String} {q : Option QueryParams}
    {urlStr : String} (h : buildURLStr baseURL path q = .ok urlStr) :
    urlStr ≠ "" := by
  unfold buildURLStr at h
  by_cases hp : path = ""
  · simp [hp] at h
  · rw [if_neg hp] at h
    cases hparse : urlParse baseURL with
    | error msg => rw [hparse] at h; simp at h
    | ok u =>
      rw [hparse] at h
      simp at h
      rw [← h]
      exact GoURL.toString_ne_empty (by simpa using hp)

/-- C8: when the injected signing capability always fails with error `e`,
every authenticated operation of the Agent (read or write, raw or JSON
variant) with otherwise valid inputs fails with exactly that error `e`
— propagated unchanged, never replaced by a transport or remote error —
and no request is handed to the transport: the request log of every
operation is empty (the JSON variants report status 0 alongside `e`). -/
theorem signing_failure_propagates (α : Type) (a : Agent) (now : Int)
    (e : GoError)
    (hsig : ∀ claims secret, (a.generateJWT claims secret).snd = some e) :
    (∀ method urlStr body, urlStr ≠ "" → method ≠ "" →
      a.sendRequest now method urlStr body = (.error e, [])) ∧
    (∀ table query urlStr,
      buildURLStr a.config.SlaveBaseURL table query = .ok urlStr →
      a.Get now table query = (.error e, []) ∧
      (∀ target : Option (DecodeTarget α),
        a.GetJSON now table query target = ((0, some e), []))) ∧
    (∀ table urlStr,
      buildURLStr a.config.MasterBaseURL table none = .ok urlStr →
      (∀ body, a.Post now table body = (.error e, []) ∧
        a.PostAndReturn now table body = (.error e, [])) ∧
      (∀ body (target : Option (DecodeTarget α)),
        a.PostJSON now table (body, none) target = ((0, some e), []))) ∧
    (∀ table query urlStr,
      buildURLStr a.config.MasterBaseURL table query = .ok urlStr →
      (∀ body, a.Patch now table query body = (.error e, [])) ∧
      (∀ body, a.PatchJSON now table query (body, none) = ((0, some e), [])) ∧
      a.Delete now table query = (.error e, []) ∧
      a.DeleteJSON now table query = ((0, some e), [])) := by
  have hnew : ∀ method urlStr body, urlStr ≠ "" → method ≠ "" →
      a.NewRequest now method urlStr body = .error e := by
    intro method urlStr body hu hm
    unfold Agent.NewRequest
    rw [if_neg hu, if_neg hm]
    by_cases hg : method = MethodGet
    · rw [if_pos hg]
      simp only [Agent.newReadRequest, Agent.generateReadTokenStr]
      cases hj : a.generateJWT (generateClaims a.config.SlaveRole a.config now)
          a.config.SlaveSecret with
      | mk tok err =>
        have herr : err = some e := by
          have hh := hsig (generateClaims a.config.SlaveRole a.config now)
            a.config.SlaveSecret
          rw [hj] at hh
          exact hh
        subst herr
        simp
    · rw [if_neg hg]
      simp only [Agent.newWriteRequest, Agent.generateWriteTokenStr]
      cases hj : a.generateJWT (generateClaims a.config.MasterRole a.config now)
          a.config.MasterSecret with
      | mk tok err =>
        have herr : err = some e := by
          have hh := hsig (generateClaims a.config.MasterRole a.config now)
            a.config.MasterSecret
          rw [hj] at hh
          exact hh
        subst herr
        simp
  have hsend : ∀ method urlStr body, urlStr ≠ "" → method ≠ "" →
      a.sendRequest now method urlStr body = (.error e, []) := by
    intro method urlStr body hu hm
    unfold Agent.sendRequest
    rw [hnew method urlStr body hu hm]
  refine ⟨hsend, ?_, ?_, ?_⟩
  · intro table query urlStr hb
    have hget : a.Get now table query = (.error e, []) := by
      unfold Agent.Get
      rw [hb]
      exact hsend MethodGet urlStr none (buildURLStr_ne_empty hb) (by decide)
    refine ⟨hget, ?_⟩
    intro target
    unfold Agent.GetJSON
    rw [hget]
  · intro table urlStr hb
    have hpost : ∀ body, a.Post now table body = (.error e, []) := by
      intro body
      unfold Agent.Post
      rw [hb]
      exact hsend MethodPost urlStr body (buildURLStr_ne_empty hb) (by decide)
    have hpar : ∀ body, a.PostAndReturn now table body = (.error e, []) := by
      intro body
      unfold Agent.PostAndReturn
      rw [hb]
      show (match a.NewRequest now MethodPost urlStr body with
            | Except.error err => ((Except.error err : Except GoError GoResponse),
                                   ([] : List GoRequest))
            | Except.ok request =>
              (a.httpClient { request with
                 Header := request.Header ++ [("Prefer", "return=representation")] },
               [{ request with
                  Header := request.Header ++ [("Prefer", "return=representation")] }])) =
          (Except.error e, [])
      rw [hnew MethodPost urlStr body (buildURLStr_ne_empty hb) (by decide)]
    refine ⟨fun body => ⟨hpost body, hpar body⟩, ?_⟩
    intro body target
    cases target with
    | none =>
      simp only [Agent.PostJSON]
      rw [hpost (some body)]
    | some decodeTarget =>
      simp only [Agent.PostJSON]
      rw [hpar (some body)]
  · intro table query urlStr hb
    have hpatch : ∀ body, a.Patch now table query body = (.error e, []) := by
      intro body
      unfold Agent.Patch
      rw [hb]
      exact hsend MethodPatch urlStr body (buildURLStr_ne_empty hb) (by decide)
    have hdel : a.Delete now table query = (.error e, []) := by
      unfold Agent.Delete
      rw [hb]
      exact hsend MethodDelete urlStr none (buildURLStr_ne_empty hb) (by decide)
    refine ⟨hpatch, ?_, hdel, ?_⟩
    · intro body
      simp only [Agent.PatchJSON]
      rw [hpatch (some body)]
    · unfold Agent.DeleteJSON
      rw [hdel]

/-- A concrete agent whose signing capability always fails. -/
def badSignAgent : Agent :=
  { config := demoAgent.config,
    httpClient := demoAgent.httpClient,
    generateJWT := fun _ _ => ("", some (.errorString "sign failure")) }

/-- Witness for C8: on the concrete `badSignAgent`, a read and a write
operation both fail with exactly the signing error and hand nothing to
the transport. -/
theorem signing_failure_propagates_witness :
    badSignAgent.Get 0 "t" none = (.error (.errorString "sign failure"), []) ∧
    badSignAgent.PostJSON (α := PUnit) 0 "t" ("{}", none) none =
      ((0, some (.errorString "sign failure")), []) := by
  have h := signing_failure_propagates PUnit badSignAgent 0
    (.errorString "sign failure") (fun _ _ => rfl)
  exact ⟨(h.2.1 "t" none "http://slave/t" (by rfl)).1,
         (h.2.2.1 "t" "http://master/t" (by rfl)).2 "{}" none⟩

end Postgrest
